import Mathlib

/-!
# Verification of the renovate-log-analyzer core (pkg/doctor)

Shallow embedding of the log-interpretation pipeline of
`konflux-ci/renovate-log-analyzer` (package `doctor`): the record parser,
the selector-driven checks, the verbose-message summarizer, the report
accumulator and the severity aggregator, translated from
`pkg/doctor/checks.go`.

Modelling conventions:
* Go strings are Lean `String`s; character-level work is done on `List Char`.
* Go `int` is `Int` where the sign can matter, `Nat` for pure counters.
* JSON values decoded by `encoding/json` into `interface{}` are the
  inductive `JValue`; the `map[string]any` of a decoded object is an
  association list (Go map iteration order is randomized; the model fixes
  insertion order, which no verified property depends on).
* A Go runtime panic (out-of-range index, failed unchecked type assertion)
  is `Option.none`; partial Go functions therefore land in `Option`.
* Go standard-library primitives used by the code (`strings.Split`,
  `strings.TrimSpace`, `strings.Contains`, `strings.Join`, the compiled
  regular expressions, `fmt` verbs `%v`/`%s`/`%d`) are modelled by
  explicit executable functions below, each faithful to the documented
  stdlib behaviour on the inputs the program feeds them (ASCII whitespace
  for trimming, RE2 semantics for the fixed patterns).
-/

/-! ## Go string primitives -/

/-- Whitespace recognized by Go `strings.TrimSpace` (ASCII part of
`unicode.IsSpace`). -/
def isSpaceGo (c : Char) : Bool :=
  c = ' ' || c = '\t' || c = '\n' || c = Char.ofNat 11 || Char.ofNat 12 = c || c = '\r'

/-- Whitespace class `\s` of Go's RE2 regexps: `[\t\n\f\r ]`. -/
def isSpaceRE (c : Char) : Bool :=
  c = '\t' || c = '\n' || Char.ofNat 12 = c || c = '\r' || c = ' '

/-- Word characters `\w` of RE2: `[0-9A-Za-z_]`. -/
def isWordChar (c : Char) : Bool :=
  ('0' ≤ c && c ≤ '9') || ('A' ≤ c && c ≤ 'Z') || ('a' ≤ c && c ≤ 'z') || c = '_'

/-- ASCII lower-casing, the case folding relevant to the `(?i)` patterns. -/
def lowerC (c : Char) : Char :=
  if 'A' ≤ c && c ≤ 'Z' then Char.ofNat (c.toNat + 32) else c

/-- Model of `strings.TrimSpace` on a character list. -/
def trimChars (cs : List Char) : List Char :=
  ((cs.dropWhile isSpaceGo).reverse.dropWhile isSpaceGo).reverse

/-- Model of `strings.TrimSpace`. -/
def trimS (s : String) : String := String.mk (trimChars s.data)

/-- Model of `strings.Split` with a one-character separator. -/
def splitListOn (sep : Char) : List Char → List (List Char)
  | [] => [[]]
  | c :: rest =>
    if c = sep then [] :: splitListOn sep rest
    else
      match splitListOn sep rest with
      | [] => [[c]]
      | h :: t => (c :: h) :: t

/-- Model of `strings.Split(s, "\n")`. -/
def splitLines (s : String) : List String :=
  (splitListOn '\n' s.data).map String.mk

/-- Model of `strings.Join(xs, "\n")`. -/
def joinNL : List String → String
  | [] => ""
  | [x] => x
  | x :: xs => x ++ "\n" ++ joinNL xs

/-- List-prefix test (first argument is the candidate prefix). -/
def isPreL : List Char → List Char → Bool
  | [], _ => true
  | _ :: _, [] => false
  | a :: as, b :: bs => a = b && isPreL as bs

/-- Model of `strings.Contains` on character lists. -/
def containsL (hay sub : List Char) : Bool :=
  isPreL sub hay ||
    match hay with
    | [] => false
    | _ :: t => containsL t sub

/-- Model of `strings.Contains`. -/
def containsSub (s sub : String) : Bool := containsL s.data sub.data

/-- Case-insensitive (ASCII) prefix test, for the `(?i)` literal patterns. -/
def ciStarts (pre cs : List Char) : Bool :=
  isPreL (pre.map lowerC) (cs.map lowerC)

/-- Case-insensitive (ASCII) substring test. -/
def ciHas (cs pat : List Char) : Bool :=
  containsL (cs.map lowerC) (pat.map lowerC)

/-! ## The fixed regular expressions of checks.go, as decidable predicates

Each `criticalPatterns` entry and the `symbolPattern` of
`processLongMessage` is translated to an executable predicate with the
same RE2 semantics on the strings the program tests.  All classes used
(`\s`, `\w`, literals, the symbol class) are disjoint where the patterns
concatenate them, so greedy scanning is exact. -/

/-- Model of `(?i)^\s*Command failed:` (via `regexp.MatchString`, so: anchored at
the start of the text). -/
def reCmdFailed (cs : List Char) : Bool :=
  ciStarts "Command failed:".data (cs.dropWhile isSpaceRE)

/-- Word-boundary test used after `(Error|FATAL|CRITICAL)\b`: the next
character, if any, is not a word character. -/
def noWordNext : List Char → Bool
  | [] => true
  | c :: _ => !isWordChar c

/-- Model of `(?i)^\s*(Error|FATAL|CRITICAL)\b`. -/
def reErrWord (cs : List Char) : Bool :=
  let t := cs.dropWhile isSpaceRE
  (ciStarts "Error".data t && noWordNext (t.drop 5)) ||
  (ciStarts "FATAL".data t && noWordNext (t.drop 5)) ||
  (ciStarts "CRITICAL".data t && noWordNext (t.drop 8))

/-- Model of `(?i)^\s*Caused by:`. -/
def reCausedBy (cs : List Char) : Bool :=
  ciStarts "Caused by:".data (cs.dropWhile isSpaceRE)

/-- Character class `[\w.]` of the dotted-error pattern. -/
def isWordDot (c : Char) : Bool := isWordChar c || c = '.'

/-- After at least one `[\w.]` character has been consumed: accept if
`Error:` (case-insensitively) starts here, else consume another class
character.  Faithful to backtracking over `[\w.]+Error:`. -/
def dottedTail : List Char → Bool
  | [] => false
  | c :: rest => ciStarts "Error:".data (c :: rest) || (isWordDot c && dottedTail rest)

/-- Model of `(?i)^\s*[\w.]+Error:`. -/
def reDottedError (cs : List Char) : Bool :=
  match cs.dropWhile isSpaceRE with
  | [] => false
  | c :: rest => isWordDot c && dottedTail rest

/-- Model of `isCriticalLine` of checks.go: the disjunction of the nine
`criticalPatterns` (the five unanchored ones are case-insensitive
substring tests). -/
def isCriticalLine (s : String) : Bool :=
  reCmdFailed s.data || reErrWord s.data || reCausedBy s.data || reDottedError s.data ||
  ciHas s.data "permission denied".data ||
  ciHas s.data "failed".data ||
  ciHas s.data "exception".data ||
  ciHas s.data "could not connect".data ||
  ciHas s.data "timed out".data

/-- The symbol class `[~^=]`. -/
def isSymCh (c : Char) : Bool := c = '~' || c = '^' || c = '='

/-- Model of `symbolPattern`: `^\s*[~^=]+\s*$` — optional whitespace, then at
least one of `~ ^ =`, then optional whitespace to the end of the text. -/
def symbolLine (s : String) : Bool :=
  let t := s.data.dropWhile isSpaceRE
  let sym := t.takeWhile isSymCh
  !sym.isEmpty && (t.drop sym.length).all isSpaceRE

/-! ## The message summarizer (`extractUsefulError` / `processLongMessage`) -/

/-- Go slice indexing `xs[k]` with an `int` index: panics (`none`) when
out of range, including negative indices. -/
def getIdx (xs : List String) (k : Int) : Option String :=
  if k < 0 then none else xs.get? k.toNat

/-- Model of `fmt.Sprintf("[... %d lines omitted ...]", n)`. -/
def omitStr (n : Int) : String := "[... " ++ toString n ++ " lines omitted ...]"

/-- The skip test of the walk (checks.go 93): a line whose trimmed form
is empty or symbol-only. -/
def badLine (t : String) : Bool := t == "" || symbolLine t

/-- One conditional tail append of the length-cutoff branch
(checks.go lines 116–131): when `grd` holds, read `lines[k]` (a panic
when out of range) and append its trimmed form unless it is empty or
symbol-only. The third, unguarded append is the `grd = true` instance. -/
def appendTail (lines : List String) (k : Int) (grd : Bool) (acc : List String) :
    Option (List String) :=
  if grd then
    match getIdx lines k with
    | none => none
    | some l => some (if !badLine (trimS l) then acc ++ [trimS l] else acc)
  else some acc

/-- The omission-placeholder flush before emitting buffered context
(checks.go 98–101 and 138–141): `omittedLines = cutLinesCount -
len(contextBuffer)` in Go `int` arithmetic, a placeholder line appended
only when it is positive. -/
def flushOmit (acc buf : List String) (cut : Nat) : List String :=
  if 0 < (cut : Int) - (buf.length : Int) then
    acc ++ [omitStr ((cut : Int) - (buf.length : Int))]
  else acc

/-- The FIFO-of-2 context-buffer push (checks.go 149–153). -/
def pushBuf (buf : List String) (t : String) : List String :=
  (if 2 ≤ buf.length then buf.drop 1 else buf) ++ [t]

/-- The length-cutoff epilogue (checks.go 108–132): the omission
placeholder for everything not yet accounted for (`cutLinesCount +
len(lines) - i - 2` in Go `int` arithmetic), then the three guarded
tail appends. -/
def cutoffTail (lines : List String) (i : Nat) (acc : List String) (cut : Nat) :
    Option (List String) :=
  match appendTail lines ((lines.length : Int) - 3)
      (decide ((i : Int) ≤ (lines.length : Int) - 3))
      (if 0 < (cut : Int) + (lines.length : Int) - (i : Int) - 2 then
        acc ++ [omitStr ((cut : Int) + (lines.length : Int) - (i : Int) - 2)]
      else acc) with
  | none => none
  | some acc2 =>
    match appendTail lines ((lines.length : Int) - 2)
        (decide ((i : Int) ≤ (lines.length : Int) - 2)) acc2 with
    | none => none
    | some acc3 => appendTail lines ((lines.length : Int) - 1) true acc3

/-- The `for i, line := range lines[1:]` loop of `processLongMessage`
(checks.go lines 88–155). State: the adjusted index `i`, the remaining
slice, `usefulLines` (`acc`), `contextBuffer` (`buf`, FIFO of size 2) and
`cutLinesCount` (`cut`). Arithmetic on indices and omission counts is Go
`int` arithmetic, hence `Int`. -/
def goPLM (lines : List String) (maxOutputLines : Int) :
    Nat → List String → List String → List String → Nat → Option (List String)
  | _, [], acc, _, _ => some acc
  | i, line :: rest, acc, buf, cut =>
    if badLine (trimS line) then
      goPLM lines maxOutputLines (i + 1) rest acc buf cut
    else if (i : Int) = (lines.length : Int) - 1 then
      some (flushOmit acc buf cut ++ buf ++ [trimS line])
    else if maxOutputLines ≤ (acc.length : Int) then
      cutoffTail lines i acc cut
    else if isCriticalLine (trimS line) then
      goPLM lines maxOutputLines (i + 1) rest (flushOmit acc buf cut ++ buf ++ [trimS line]) [] 0
    else
      goPLM lines maxOutputLines (i + 1) rest acc (pushBuf buf (trimS line)) (cut + 1)

/-- Model of `processLongMessage` up to the final `strings.Join`: the emitted
`usefulLines` list. Reading `lines[0]` panics when `lines` is empty. -/
def processLongLines (lines : List String) (maxOutputLines : Int) : Option (List String) :=
  match getIdx lines 0 with
  | none => none
  | some l0 => goPLM lines maxOutputLines 1 (lines.drop 1) [trimS l0] [] 0

/-- Model of `processLongMessage` of checks.go. -/
def processLongMessage (lines : List String) (maxOutputLines : Int) : Option String :=
  (processLongLines lines maxOutputLines).map joinNL

/-- The trailing half of the edge strip of `extractUsefulError`
(checks.go 66–68): drop the last element when it is `""`; reading
`lines[len(lines)-1]` on an empty slice panics (`none`). -/
def stripTrailing (l1 : List String) : Option (List String) :=
  match l1.getLast? with
  | none => none
  | some lastLine => some (if lastLine = "" then l1.dropLast else l1)

/-- The leading/trailing empty-line strip of `extractUsefulError`
(checks.go 62–68): drop `lines[0]` when it is `""` (for a nonempty
slice, `lines[0] == ""` is `head? = some ""`), then the trailing
strip. -/
def stripEdges (lines : List String) : Option (List String) :=
  stripTrailing (if lines.head? = some "" then lines.tail else lines)

/-- Model of `extractUsefulError` of checks.go. -/
def extractUsefulError (fullMessage : String) (maxOutputLines : Int) : Option String :=
  if fullMessage = "" then some ""
  else
    match stripEdges (splitLines fullMessage) with
    | none => none
    | some lines =>
      if (lines.length : Int) ≤ maxOutputLines then some (trimS fullMessage)
      else processLongMessage lines maxOutputLines

/-- Model of `extractUsefulErrorDefault` of checks.go: the fixed budget 8. -/
def extractUsefulErrorDefault (fullMessage : String) : Option String :=
  extractUsefulError fullMessage 8

/-- Total companion of `stripTrailing`: drop the trailing fully-empty
line when present. -/
def claimStripTail (l1 : List String) : List String :=
  if l1.getLast? = some "" then l1.dropLast else l1

/-- Total companion of `stripEdges`, stated the way claim C8 words it:
the message's lines after stripping a single leading and a single
trailing fully-empty line. -/
def claimStrip (msg : String) : List String :=
  claimStripTail
    (if (splitLines msg).head? = some "" then (splitLines msg).tail else splitLines msg)

/-! ## Decoded JSON values and Go `fmt` rendering -/

/-- A decoded JSON value, as `encoding/json` produces it in an
`interface{}`: `nil`, `bool`, `float64` (exact rationals in the model),
`string`, `[]interface{}`, and `map[string]interface{}` (modelled as an
association list in insertion order). -/
inductive JValue where
  | null : JValue
  | bool (b : Bool) : JValue
  | num (q : ℚ) : JValue
  | str (s : String) : JValue
  | arr (elems : List JValue) : JValue
  | obj (fields : List (String × JValue)) : JValue

/-- Model of Go `fmt` `%v` on a `float64`: integral values print with no
decimal part; no verified property depends on the non-integral case. -/
def numGoRepr (q : ℚ) : String :=
  if q.den = 1 then toString q.num else toString q

mutual

/-- Model of Go `fmt` `%v` on an `interface{}` holding a decoded JSON
value (`nil` prints `<nil>`, strings print as themselves, slices print
space-separated in brackets, maps print as `map[k:v ...]`). -/
def govRepr : JValue → String
  | .null => "<nil>"
  | .bool b => cond b "true" "false"
  | .num q => numGoRepr q
  | .str s => s
  | .arr elems => "[" ++ govReprList elems ++ "]"
  | .obj fields => "map[" ++ govReprObj fields ++ "]"

/-- Model of `%v` of a slice's elements, space-separated. -/
def govReprList : List JValue → String
  | [] => ""
  | [v] => govRepr v
  | v :: rest => govRepr v ++ " " ++ govReprList rest

/-- Model of `%v` of a map's entries, space-separated. -/
def govReprObj : List (String × JValue) → String
  | [] => ""
  | [kv] => kv.1 ++ ":" ++ govRepr kv.2
  | kv :: rest => kv.1 ++ ":" ++ govRepr kv.2 ++ " " ++ govReprObj rest

end

/-- Model of Go `fmt` `%s` on an `interface{}` holding a decoded JSON
value or the `nil` of a missing map key: strings print as themselves,
`nil` prints the `%!s(<nil>)` error verb, other values as `%v`. -/
def goS : Option JValue → String
  | none => "%!s(<nil>)"
  | some (.str s) => s
  | some v => govRepr v

/-! ## The report accumulator (`SimpleReport`) -/

/-- Model of `SimpleReport`: the three categorized finding lists. The struct
declaration itself is not among the excerpted source files; its shape is
fixed by its uses in checks.go and by spec §3 ("Report"). -/
structure SimpleReport where
  Errors : List String := []
  Warnings : List String := []
  Infos : List String := []
deriving DecidableEq

/-- The key/value walk of `formatSimpleMessage` (checks.go 504–515, a
trailing odd field is dropped): a field whose rendered key is `Message`
goes on its own line-block, all others are pipe-separated pairs. -/
def renderPairs : List JValue → String
  | k :: v :: rest =>
    (if govRepr k = "Message" then "\n" ++ govRepr k ++ ": " ++ govRepr v ++ "\n"
     else " | " ++ govRepr k ++ ": " ++ govRepr v) ++ renderPairs rest
  | _ => ""

/-- Model of `formatSimpleMessage` of checks.go. -/
def formatSimpleMessage (msg : String) (fields : List JValue) : String :=
  if fields.isEmpty then msg else msg ++ renderPairs fields

/-- Model of `SimpleReport.Error`: append-only. -/
def SimpleReport.Error (r : SimpleReport) (msg : String) (fields : List JValue) :
    SimpleReport :=
  { r with Errors := r.Errors ++ [formatSimpleMessage msg fields] }

/-- Model of `SimpleReport.Warning`: append only when the formatted string is not
already present (`slices.Contains`). -/
def SimpleReport.Warning (r : SimpleReport) (msg : String) (fields : List JValue) :
    SimpleReport :=
  let formatted := formatSimpleMessage msg fields
  if formatted ∈ r.Warnings then r
  else { r with Warnings := r.Warnings ++ [formatted] }

/-- Model of `SimpleReport.Info`: append-only. -/
def SimpleReport.Info (r : SimpleReport) (msg : String) (fields : List JValue) :
    SimpleReport :=
  { r with Infos := r.Infos ++ [formatSimpleMessage msg fields] }

/-! ## The log record and the selector check functions -/

/-- Model of `LogEntry` (spec §3 `LogRecord`): its declaration is not among the
excerpted source files; the shape (level name, message, allow-listed
extras bag) is fixed by its uses in checks.go and by spec §3. -/
structure LogEntry where
  Level : String := ""
  Msg : String := ""
  Extras : List (String × JValue) := []

/-- Model of `line.Extras[k]` read as an expression value: a missing key yields
the `nil` interface. -/
def extraVal (line : LogEntry) (k : String) : JValue :=
  (List.lookup k line.Extras).getD .null

/-- Model of `prLimitReached` (checks.go 175–177). -/
def prLimitReached (_line : LogEntry) (report : SimpleReport) : Option SimpleReport :=
  some (report.Warning "PR limit reached - skipping PR creation" [])

/-- Model of `renovateConfigErrors` (checks.go 180–193): every type assertion is
checked, so it never panics. -/
def renovateConfigErrors (line : LogEntry) (report : SimpleReport) : Option SimpleReport :=
  let configErrors : List String :=
    match List.lookup "errors" line.Extras with
    | some (.arr errors) =>
      errors.filterMap fun e =>
        match e with
        | .obj errMap =>
          some ("\n" ++ goS (List.lookup "topic" errMap) ++ ": " ++
            goS (List.lookup "message" errMap))
        | _ => none
    | _ => ["Unable to parse config errors"]
  some (report.Error "Found renovate config errors"
    [.str "Errors", .str (String.join configErrors)])

/-- Character class `[\w\/\.\-]` of `fileNotFoundRe`. -/
def isPathChar (c : Char) : Bool := isWordChar c || c = '/' || c = '.' || c = '-'

/-- The literal head of `fileNotFoundRe` (case-sensitive). -/
def fnfLit : List Char := "FileNotFoundError: [Errno 2] No such file or directory: '".data

/-- Drop `pre` from the front of `cs` when it is a prefix. -/
def dropPre? : List Char → List Char → Option (List Char)
  | [], cs => some cs
  | _ :: _, [] => none
  | a :: as, b :: bs => if a = b then dropPre? as bs else none

/-- Model of `fileNotFoundRe` anchored at the current position: the literal, then
a maximal nonempty run of path characters (the capture group), then a
closing quote. The quote is not a path character, so greedy matching is
exact. -/
def fnfHere (cs : List Char) : Option String :=
  match dropPre? fnfLit cs with
  | none => none
  | some rest =>
    let path := rest.takeWhile isPathChar
    if path.isEmpty then none
    else
      match rest.drop path.length with
      | '\'' :: _ => some (String.mk path)
      | _ => none

/-- The capture group of `fileNotFoundRe.FindStringSubmatch`: leftmost
match (RE2 semantics), `none` when the pattern does not occur. -/
def fnfMatch (cs : List Char) : Option String :=
  match fnfHere cs with
  | some p => some p
  | none =>
    match cs with
    | [] => none
    | _ :: t => fnfMatch t

/-- Model of `rawExecError` (checks.go 196–225): checked assertions throughout;
invokes the summarizer with the default budget 8 on the nested error
message. -/
def rawExecError (line : LogEntry) (report : SimpleReport) : Option SimpleReport :=
  match List.lookup "err" line.Extras with
  | some (.obj errData) =>
    let fields0 : List JValue :=
      [.str "Branch", extraVal line "branch", .str "Duration", extraVal line "durationMs"]
    let fields1 :=
      match List.lookup "options" errData with
      | some (.obj options) =>
        fields0 ++ [.str "Timeout", (List.lookup "timeout" options).getD .null]
      | _ => fields0
    let message :=
      match List.lookup "message" errData with
      | some (.str s) => s
      | _ => ""
    let fields2 :=
      if containsSub message "Failed to download metadata for repo" then
        fields1 ++ [.str "Hint", .str "Possible Red Hat subscription activation key issue"]
      else fields1
    let fields3 :=
      match fnfMatch message.data with
      | some path =>
        fields2 ++
          [.str "Hint", .str ("File not found: " ++ path ++ ", check rpms.in.yaml configuration")]
      | none => fields2
    match extractUsefulErrorDefault message with
    | none => none
    | some useful =>
      some (report.Error "Error executing command" (fields3 ++ [.str "Message", .str useful]))
  | _ => some report

/-- Model of `platformCommitError` (checks.go 228–246): the assertions on
`errData["task"]` and `task["commands"]` (line 236) are unchecked, so a
present-but-misshapen `err` extra panics (`none`). -/
def platformCommitError (line : LogEntry) (report : SimpleReport) : Option SimpleReport :=
  match List.lookup "err" line.Extras with
  | some (.obj errData) =>
    let errMessage :=
      match List.lookup "message" errData with
      | some (.str s) => s
      | _ => ""
    match List.lookup "task" errData with
    | some (.obj task) =>
      match List.lookup "commands" task with
      | some (.arr commands) =>
        let fullTask := commands.foldl (fun acc cmd => acc ++ " " ++ goS (some cmd)) ""
        some (report.Error line.Msg
          [.str "Branch", extraVal line "branch", .str "Message", .str errMessage,
           .str "Task", .str fullTask])
      | _ => none
    | _ => none
  | _ => some report

/-- The selector registry populated by `init()` (checks.go 47–53), in
registration order (Go map iteration order is randomized; the model
fixes this order, on which no verified property depends). -/
def selectorList : List (String × (LogEntry → SimpleReport → Option SimpleReport)) :=
  [("Reached PR limit - skipping PR creation", prLimitReached),
   ("Found renovate config errors", renovateConfigErrors),
   ("rawExec err", rawExecError),
   ("Platform-native commit: unknown error", platformCommitError)]

/-- The selector dispatch of `ProcessLogFile` (checks.go 338–343): every
registered entry whose selector substring occurs in the message fires; a
panic inside a check function aborts the scan. -/
def dispatchLine (entry : LogEntry) (report : SimpleReport) : Option SimpleReport :=
  selectorList.foldlM
    (fun rep sel => if containsSub entry.Msg sel.1 then sel.2 entry rep else some rep)
    report

/-! ## The record parser (`parseLogLine`) -/

/-- The allow-list of extra fields kept by the parser (checks.go
394–396). -/
def allowList : List String :=
  ["err", "errors", "errorMessage", "branch", "durationMs", "depName",
   "branchesInformation", "context", "packageFile", "currentValue",
   "previousNewValue", "thisNewValue", "oldConfig", "newConfig", "migratedConfig"]

/-- Model of `renovateLogLevels` (checks.go 273–280). -/
def renovateLogLevels : List (Int × String) :=
  [(10, "TRACE"), (20, "DEBUG"), (30, "INFO"), (40, "WARN"), (50, "ERROR"), (60, "FATAL")]

/-- Go's `int(f)` conversion of a `float64`: truncation toward zero. -/
def ratTrunc (q : ℚ) : Int := Int.tdiv q.num q.den

/-- One key of the `parseLogLine` field switch (checks.go 369–398):
a numeric `level` is truncated to an `int` and looked up in the table
(`continue` on a non-number or an unknown code); a string `msg` is
kept; allow-listed keys land in `Extras`; everything else is dropped. -/
def parseStep (entry : LogEntry) (kv : String × JValue) : LogEntry :=
  if kv.1 = "level" then
    match kv.2 with
    | .num q =>
      match List.lookup (ratTrunc q) renovateLogLevels with
      | some levelStr => { entry with Level := levelStr }
      | none => entry
    | _ => entry
  else if kv.1 = "msg" then
    match kv.2 with
    | .str s => { entry with Msg := s }
    | _ => entry
  else if kv.1 ∈ allowList then
    { entry with Extras := entry.Extras ++ [kv] }
  else entry

/-- Model of `parseLogLine` after a successful `json.Unmarshal`: the field switch
folded over the decoded object (a Go map has distinct keys; its
randomized iteration order is fixed to list order in the model). -/
def parseLogLine (rawData : List (String × JValue)) : LogEntry :=
  rawData.foldl parseStep {}

/-! ## The severity aggregator -/

/-- Model of `buildErrorMessage`'s fall-through when no string `err.message` is
available (checks.go 450–454): a string `errorMessage` extra, else the
bare message with a trailing newline. -/
def buildErrorMessageTail (logEntry : LogEntry) : String :=
  match List.lookup "errorMessage" logEntry.Extras with
  | some (.str errorMessage) => logEntry.Msg ++ ": " ++ errorMessage
  | _ => logEntry.Msg ++ "\n"

/-- Model of `buildErrorMessage` (checks.go 440–455). -/
def buildErrorMessage (logEntry : LogEntry) : String :=
  match List.lookup "err" logEntry.Extras with
  | some (.obj errMap) =>
    match List.lookup "message" errMap with
    | some (.str message) => logEntry.Msg ++ ": " ++ message
    | _ => buildErrorMessageTail logEntry
  | _ => buildErrorMessageTail logEntry

/-- Model of `map[string]int` increment `m[k]++` on the association-list model of
the tally: bump an existing key in place, else append with count 1. -/
def bump : List (String × Nat) → String → List (String × Nat)
  | [], k => [(k, 1)]
  | (a, n) :: rest, k => if a = k then (a, n + 1) :: rest else (a, n) :: bump rest k

/-- Model of `formatFailMsg` (checks.go 418–437): one pass accumulating the total
count and the per-message renderings (count-prefixed exactly when the
count exceeds 1), joined with the empty separator. -/
def formatFailMsg (logs : List (String × Nat)) (logLevel : String) : String :=
  if logs.isEmpty then ""
  else
    let acc := logs.foldl
      (fun (acc : Nat × List String) mc =>
        (acc.1 + mc.2,
         acc.2 ++ [if 1 < mc.2 then toString mc.2 ++ "x " ++ mc.1 else mc.1]))
      (0, [])
    toString acc.1 ++ " " ++ logLevel ++ ": " ++ String.join acc.2

/-- Model of `buildErrorMessageFromLogs` (checks.go 404–415). -/
def buildErrorMessageFromLogs (errorsMap fatalMap : List (String × Nat)) : String :=
  let errString := formatFailMsg errorsMap "ERROR"
  let fatalString := formatFailMsg fatalMap "FATAL"
  if errString = "" ∧ fatalString = "" then ""
  else "Mintmaker finished with " ++ errString ++ fatalString

/-- The per-tally rendering exactly as claim C5 words it:
`"<total N> <LEVEL>: "` followed by the concatenation of the tally's
distinct formatted messages, each prefixed `"<count>x "` exactly when
that message's count is greater than 1. -/
def renderTallySpec (tally : List (String × Nat)) (level : String) : String :=
  if tally.isEmpty then ""
  else
    toString (tally.map Prod.snd).sum ++ " " ++ level ++ ": " ++
      String.join (tally.map fun mc => if 1 < mc.2 then toString mc.2 ++ "x " ++ mc.1 else mc.1)

/-- The full digest exactly as claim C5 words it: the ERROR rendering
concatenated before the FATAL rendering, and nothing else. -/
def claimDigest (errorsMap fatalMap : List (String × Nat)) : String :=
  renderTallySpec errorsMap "ERROR" ++ renderTallySpec fatalMap "FATAL"

/-! ## The scan loop (`ProcessLogFile`) -/

/-- One scanned input line as it reaches `parseLogLine`: `none` when
`json.Unmarshal` rejects it (the caller skips it), otherwise the decoded
object. -/
abbrev RawLine := Option (List (String × JValue))

/-- The mutable state of one `ProcessLogFile` scan: the two severity
tallies and the report. -/
structure ScanState where
  errorsMap : List (String × Nat) := []
  fatalMap : List (String × Nat) := []
  report : SimpleReport := {}
deriving DecidableEq

/-- The body of the scan loop for one line (checks.go 321–343): skip an
unparseable line, tally an ERROR/FATAL record, then dispatch the
selectors (whose panics propagate). -/
def stepLine (st : ScanState) (raw : RawLine) : Option ScanState :=
  match raw with
  | none => some st
  | some rawData =>
    let entry := parseLogLine rawData
    let st1 :=
      match entry.Level with
      | "FATAL" => { st with fatalMap := bump st.fatalMap (buildErrorMessage entry) }
      | "ERROR" => { st with errorsMap := bump st.errorsMap (buildErrorMessage entry) }
      | _ => st
    (dispatchLine entry st1.report).map fun rep => { st1 with report := rep }

/-- The five-way emptiness test of checks.go lines 313 and 347. -/
def stateEmpty (st : ScanState) : Bool :=
  st.errorsMap.isEmpty && st.fatalMap.isEmpty && st.report.Errors.isEmpty &&
    st.report.Warnings.isEmpty && st.report.Infos.isEmpty

/-- Model of `context.Context` cancellation: `some k` means `ctx.Done()`
is closed from the `k`-th line check onward; `none` means never. -/
def ctxDone (cancelFrom : Option Nat) (lineCount : Nat) : Bool :=
  match cancelFrom with
  | some k => decide (k ≤ lineCount)
  | none => false

/-- The coarse cancellation test of the scan loop (checks.go 310–312):
every 100 lines, poll whether the context is done. -/
def cancelCheck (cancelFrom : Option Nat) (lineCount : Nat) : Bool :=
  decide (lineCount % 100 = 0) && ctxDone cancelFrom lineCount

/-- The result of `ProcessLogFile`: Go returns `(digest, report, err)`;
the shapes that occur are a hard failure (non-nil error, empty digest)
and a success (digest, nil error); the report is returned either way. -/
inductive PLFResult where
  | fail (errMsg : String) (report : SimpleReport) : PLFResult
  | ok (digest : String) (report : SimpleReport) : PLFResult
deriving DecidableEq

/-- The scan loop of `ProcessLogFile` (checks.go 308–353): a cancellation
check every 100 lines before reading the line, then the per-line step;
when the input is exhausted, `scanner.Err()` decides between the
read-error handling (313–319 mirrored at 346–351) and the normal
return. -/
def plfGo (cancelFrom : Option Nat) (readErr : Bool) :
    Nat → List RawLine → ScanState → Option PLFResult
  | _, [], st =>
    if readErr then
      if stateEmpty st then some (.fail "error reading log file" st.report)
      else some (.ok (buildErrorMessageFromLogs st.errorsMap st.fatalMap) st.report)
    else some (.ok (buildErrorMessageFromLogs st.errorsMap st.fatalMap) st.report)
  | lineCount, raw :: rest, st =>
    if cancelCheck cancelFrom lineCount then
      if stateEmpty st then some (.fail "log processing cancelled" st.report)
      else some (.ok (buildErrorMessageFromLogs st.errorsMap st.fatalMap) st.report)
    else
      match stepLine st raw with
      | none => none
      | some st1 => plfGo cancelFrom readErr (lineCount + 1) rest st1

/-- Model of `ProcessLogFile` after the log file has been opened: the inputs of
the model are the stream of scanned lines, whether the scanner ends in a
read error, and the cancellation schedule. -/
def processLogFile (cancelFrom : Option Nat) (stream : List RawLine) (readErr : Bool) :
    Option PLFResult :=
  plfGo cancelFrom readErr 0 stream {}

/-! ## Call sequences against the report accumulator (for claim C7) -/

/-- One call to the report accumulator. -/
inductive ReportOp where
  | err (msg : String) (fields : List JValue) : ReportOp
  | warn (msg : String) (fields : List JValue) : ReportOp
  | info (msg : String) (fields : List JValue) : ReportOp

/-- Apply one accumulator call. -/
def applyOp (r : SimpleReport) : ReportOp → SimpleReport
  | .err m f => r.Error m f
  | .warn m f => r.Warning m f
  | .info m f => r.Info m f

/-- Run a call sequence against an initially empty report. -/
def applyOps (ops : List ReportOp) : SimpleReport :=
  ops.foldl applyOp {}

/-- The formatted strings of the `Error` calls, in call order. -/
def errStrings (ops : List ReportOp) : List String :=
  ops.filterMap fun op =>
    match op with
    | .err m f => some (formatSimpleMessage m f)
    | _ => none

/-- The formatted strings of the `Warning` calls, in call order. -/
def warnStrings (ops : List ReportOp) : List String :=
  ops.filterMap fun op =>
    match op with
    | .warn m f => some (formatSimpleMessage m f)
    | _ => none

/-- The formatted strings of the `Info` calls, in call order. -/
def infoStrings (ops : List ReportOp) : List String :=
  ops.filterMap fun op =>
    match op with
    | .info m f => some (formatSimpleMessage m f)
    | _ => none

/-- First-seen deduplication as spec §3 words it: a string is appended
only if not already present, preserving first-seen order. -/
def dedupFirstSeen (xs : List String) : List String :=
  xs.foldl (fun acc x => if x ∈ acc then acc else acc ++ [x]) []

/-- The level the amended claim C2 predicts: a numeric `level` value is
truncated toward zero and mapped through the table when the truncation
is a table key; every other case leaves the level unset. -/
def claimLevel (rawData : List (String × JValue)) : String :=
  match List.lookup "level" rawData with
  | some (.num q) => (List.lookup (ratTrunc q) renovateLogLevels).getD ""
  | _ => ""

/-! # Theorems for the frozen claims -/

/-- C1: the claim says every registered check function degrades
gracefully (partial output or no-op) on every shape of the record's
extras and never panics. The code violates this: `platformCommitError`
asserts `errData["task"].(map[string]interface{})["commands"].([]interface{})`
without the `ok` form, so the log line
`{"msg":"Platform-native commit: unknown error","err":{}}` — whose `err`
extra is a well-formed object that merely lacks `task` — panics the
check, and with it the selector dispatch of the whole scan. The spec
(§4.4, §7b) is unambiguous that this must not happen, so this is a code
bug, witnessed here by evaluating the code at the failing input. -/
theorem c1_platformCommitError_panics :
    platformCommitError
        (parseLogLine [("msg", .str "Platform-native commit: unknown error"), ("err", .obj [])])
        {} = none ∧
      dispatchLine
        (parseLogLine [("msg", .str "Platform-native commit: unknown error"), ("err", .obj [])])
        {} = none := by
  exact ⟨rfl, rfl⟩

/-- Helper: a key other than `level` never changes the parsed level. -/
theorem parseStep_level_of_ne (entry : LogEntry) (kv : String × JValue)
    (h : kv.1 ≠ "level") : (parseStep entry kv).Level = entry.Level := by
  unfold parseStep
  rw [if_neg h]
  split
  · split <;> rfl
  · split <;> rfl

/-- Helper: folding the field switch over keys that do not include
`level` preserves the level. -/
theorem foldl_parseStep_level_of_not_mem (raw : List (String × JValue)) :
    ∀ entry : LogEntry, "level" ∉ raw.map Prod.fst →
      (raw.foldl parseStep entry).Level = entry.Level := by
  induction raw with
  | nil => intro entry _; rfl
  | cons kv rest ih =>
    intro entry hmem
    simp only [List.map_cons, List.mem_cons, not_or] at hmem
    rw [List.foldl_cons, ih _ hmem.2, parseStep_level_of_ne _ _ (fun hh => hmem.1 hh.symm)]

/-- Helper: the level computed by the field-switch fold, for an object
with distinct keys (as any decoded Go map has). -/
theorem foldl_parseStep_level (raw : List (String × JValue)) :
    ∀ entry : LogEntry, (raw.map Prod.fst).Nodup →
      (raw.foldl parseStep entry).Level =
        (match List.lookup "level" raw with
         | some (.num q) => (List.lookup (ratTrunc q) renovateLogLevels).getD entry.Level
         | _ => entry.Level) := by
  induction raw with
  | nil => intro entry _; rfl
  | cons kv rest ih =>
    intro entry hnd
    obtain ⟨k, v⟩ := kv
    simp only [List.map_cons, List.nodup_cons] at hnd
    by_cases hk : k = "level"
    · subst hk
      rw [List.foldl_cons, foldl_parseStep_level_of_not_mem rest _ hnd.1]
      have hlk : List.lookup "level" (("level", v) :: rest) = some v := by
        simp [List.lookup]
      rw [hlk]
      unfold parseStep
      simp only [if_pos rfl]
      cases v with
      | num q =>
        cases h : List.lookup (ratTrunc q) renovateLogLevels <;> simp [h]
      | null => rfl
      | bool b => rfl
      | str s => rfl
      | arr elems => rfl
      | obj fields => rfl
    · have hbeq : ("level" == k) = false :=
        beq_eq_false_iff_ne.mpr (fun hh => hk hh.symm)
      have hlk : List.lookup "level" ((k, v) :: rest) = List.lookup "level" rest := by
        simp [List.lookup, hbeq]
      rw [List.foldl_cons, ih _ hnd.2, hlk, parseStep_level_of_ne _ _ hk]

/-- C2 counterexample: the claim says every `level` value other than the
six table numbers leaves the level unset. The decoded JSON number 10.5
(= 21/2) is not one of {10, 20, 30, 40, 50, 60}, yet the parser sets
TRACE, because Go's `int(levelFloat)` truncates toward zero before the
table lookup (checks.go line 378). -/
theorem c2_counterexample :
    (parseLogLine [("level", JValue.num (mkRat 21 2))]).Level = "TRACE" ∧
      mkRat 21 2 ∉ ([10, 20, 30, 40, 50, 60] : List ℚ) := by
  constructor
  · rfl
  · decide

/-- C2 (amended): for every decoded JSON object, a `level` field holding
a JSON number is truncated toward zero and mapped through the fixed
6-entry table when the truncated value is a table key; every other case
(absent `level`, non-numeric `level`, truncation not in the table)
leaves the parsed record's level unset (empty). -/
theorem c2_amended (rawData : List (String × JValue))
    (hnd : (rawData.map Prod.fst).Nodup) :
    (parseLogLine rawData).Level = claimLevel rawData := by
  unfold parseLogLine claimLevel
  rw [foldl_parseStep_level rawData _ hnd]

/-- C2 witness: the amended theorem applied to a concrete record with
`level` 50 and a message. -/
theorem c2_witness :
    (parseLogLine [("level", JValue.num 50), ("msg", JValue.str "boom")]).Level =
      claimLevel [("level", JValue.num 50), ("msg", JValue.str "boom")] ∧
      claimLevel [("level", JValue.num 50), ("msg", JValue.str "boom")] = "ERROR" := by
  refine ⟨c2_amended _ ?_, ?_⟩
  · decide
  · rfl

/-- Helper: the single accumulating pass of `formatFailMsg` computes the
total of the counts and the list of per-message renderings. -/
theorem formatFailMsg_foldl (logs : List (String × Nat)) :
    ∀ (a : Nat) (l : List String),
      logs.foldl
        (fun (acc : Nat × List String) mc =>
          (acc.1 + mc.2,
           acc.2 ++ [if 1 < mc.2 then toString mc.2 ++ "x " ++ mc.1 else mc.1]))
        (a, l) =
      (a + (logs.map Prod.snd).sum,
       l ++ logs.map fun mc => if 1 < mc.2 then toString mc.2 ++ "x " ++ mc.1 else mc.1) := by
  induction logs with
  | nil => intro a l; simp
  | cons mc rest ih =>
    intro a l
    rw [List.foldl_cons, ih]
    simp [add_assoc]

/-- Helper: `formatFailMsg` agrees with the per-tally rendering stated
by the claim. -/
theorem formatFailMsg_eq_render (logs : List (String × Nat)) (logLevel : String) :
    formatFailMsg logs logLevel = renderTallySpec logs logLevel := by
  unfold formatFailMsg renderTallySpec
  by_cases h : logs.isEmpty
  · rw [if_pos h, if_pos h]
  · rw [if_neg h, if_neg h, formatFailMsg_foldl]
    simp

/-- Helper: a non-empty tally renders to a non-empty string. -/
theorem renderTallySpec_ne_empty (tally : List (String × Nat)) (level : String)
    (h : tally.isEmpty = false) : renderTallySpec tally level ≠ "" := by
  unfold renderTallySpec
  rw [if_neg (by simp [h])]
  intro hc
  have hlen := congrArg String.length hc
  simp only [String.length_append] at hlen
  have h1 : (" " : String).length = 1 := rfl
  have h0 : ("" : String).length = 0 := rfl
  rw [h1, h0] at hlen
  omega

/-- Helper: `formatFailMsg` yields the empty string exactly on the empty
tally. -/
theorem formatFailMsg_eq_empty_iff (logs : List (String × Nat)) (level : String) :
    (formatFailMsg logs level = "") ↔ logs.isEmpty = true := by
  rw [formatFailMsg_eq_render]
  cases h : logs.isEmpty with
  | true =>
    unfold renderTallySpec
    rw [if_pos h]
    simp
  | false => simp [renderTallySpec_ne_empty logs level h]

/-- Helper: the digest is the claim's rendering behind the fixed
`"Mintmaker finished with "` prefix. -/
theorem buildErrorMessageFromLogs_eq (e f : List (String × Nat)) :
    buildErrorMessageFromLogs e f =
      if e.isEmpty ∧ f.isEmpty then ""
      else "Mintmaker finished with " ++ renderTallySpec e "ERROR" ++ renderTallySpec f "FATAL" := by
  unfold buildErrorMessageFromLogs
  by_cases h1 : e.isEmpty = true
  · by_cases h2 : f.isEmpty = true
    · rw [if_pos ⟨(formatFailMsg_eq_empty_iff e "ERROR").mpr h1,
            (formatFailMsg_eq_empty_iff f "FATAL").mpr h2⟩,
        if_pos ⟨h1, h2⟩]
    · rw [if_neg (fun hc => h2 ((formatFailMsg_eq_empty_iff f "FATAL").mp hc.2)),
        if_neg (fun hc => h2 hc.2),
        formatFailMsg_eq_render, formatFailMsg_eq_render]
  · rw [if_neg (fun hc => h1 ((formatFailMsg_eq_empty_iff e "ERROR").mp hc.1)),
      if_neg (fun hc => h1 hc.1),
      formatFailMsg_eq_render, formatFailMsg_eq_render]

/-- Helper: nothing prefixed by the digest header is the empty string. -/
theorem mintmaker_prefix_ne_empty (s : String) :
    "Mintmaker finished with " ++ s ≠ "" := by
  intro hc
  have hlen := congrArg String.length hc
  rw [String.length_append] at hlen
  have h24 : ("Mintmaker finished with " : String).length = 24 := rfl
  have h0 : ("" : String).length = 0 := rfl
  rw [h24, h0] at hlen
  omega

/-- C5 counterexample: the claim's rendering omits the constant digest
header. For the singleton ERROR tally `{"boom": 1}` the code renders
`"Mintmaker finished with 1 ERROR: boom"`, not the `"1 ERROR: boom"` the
claim describes (checks.go 412–414). -/
theorem c5_counterexample :
    buildErrorMessageFromLogs [("boom", 1)] [] ≠ claimDigest [("boom", 1)] [] ∧
      buildErrorMessageFromLogs [("boom", 1)] [] = "Mintmaker finished with 1 ERROR: boom" ∧
      claimDigest [("boom", 1)] [] = "1 ERROR: boom" := by
  decide

/-- C5 (amended): at end of stream the digest is, for each non-empty
tally, `"<total N> <LEVEL>: "` followed by the concatenation of that
tally's distinct formatted messages, each prefixed `"<count>x "` exactly
when its count exceeds 1, the ERROR rendering before the FATAL
rendering, the whole prefixed by the constant header
`"Mintmaker finished with "`; the digest is empty exactly when both
tallies are empty. -/
theorem c5_amended (errorsMap fatalMap : List (String × Nat)) :
    (buildErrorMessageFromLogs errorsMap fatalMap =
      if errorsMap.isEmpty ∧ fatalMap.isEmpty then ""
      else "Mintmaker finished with " ++ claimDigest errorsMap fatalMap) ∧
    (buildErrorMessageFromLogs errorsMap fatalMap = "" ↔
      (errorsMap.isEmpty ∧ fatalMap.isEmpty)) := by
  constructor
  · rw [buildErrorMessageFromLogs_eq]
    unfold claimDigest
    by_cases h : errorsMap.isEmpty ∧ fatalMap.isEmpty
    · rw [if_pos h, if_pos h]
    · rw [if_neg h, if_neg h, String.append_assoc]
  · rw [buildErrorMessageFromLogs_eq]
    by_cases h : errorsMap.isEmpty ∧ fatalMap.isEmpty
    · rw [if_pos h]
      simp [h]
    · rw [if_neg h]
      constructor
      · intro hc
        rw [String.append_assoc] at hc
        exact absurd hc (mintmaker_prefix_ne_empty _)
      · intro hcontra
        exact absurd hcontra h

/-- Helper: `Error` appends its formatted string to `Errors`. -/
theorem Error_errors (r : SimpleReport) (m : String) (f : List JValue) :
    (r.Error m f).Errors = r.Errors ++ [formatSimpleMessage m f] := rfl

/-- Helper: `Warning` leaves `Errors` unchanged. -/
theorem Warning_errors (r : SimpleReport) (m : String) (f : List JValue) :
    (r.Warning m f).Errors = r.Errors := by
  simp only [SimpleReport.Warning]
  split <;> rfl

/-- Helper: `Warning` leaves `Infos` unchanged. -/
theorem Warning_infos (r : SimpleReport) (m : String) (f : List JValue) :
    (r.Warning m f).Infos = r.Infos := by
  simp only [SimpleReport.Warning]
  split <;> rfl

/-- Helper: the `Warnings` update of `Warning` is the guarded append. -/
theorem Warning_warnings (r : SimpleReport) (m : String) (f : List JValue) :
    (r.Warning m f).Warnings =
      if formatSimpleMessage m f ∈ r.Warnings then r.Warnings
      else r.Warnings ++ [formatSimpleMessage m f] := by
  simp only [SimpleReport.Warning]
  split <;> rfl

/-- Helper: a call sequence appends exactly the Error projections. -/
theorem foldl_applyOp_errors (ops : List ReportOp) :
    ∀ r : SimpleReport, (ops.foldl applyOp r).Errors = r.Errors ++ errStrings ops := by
  induction ops with
  | nil => intro r; simp [errStrings]
  | cons op rest ih =>
    intro r
    rw [List.foldl_cons, ih]
    cases op with
    | err m f => simp [applyOp, Error_errors, errStrings, List.filterMap_cons]
    | warn m f => simp [applyOp, Warning_errors, errStrings, List.filterMap_cons]
    | info m f =>
      simp [applyOp, SimpleReport.Info, errStrings, List.filterMap_cons]

/-- Helper: a call sequence appends exactly the Info projections. -/
theorem foldl_applyOp_infos (ops : List ReportOp) :
    ∀ r : SimpleReport, (ops.foldl applyOp r).Infos = r.Infos ++ infoStrings ops := by
  induction ops with
  | nil => intro r; simp [infoStrings]
  | cons op rest ih =>
    intro r
    rw [List.foldl_cons, ih]
    cases op with
    | err m f => simp [applyOp, SimpleReport.Error, infoStrings, List.filterMap_cons]
    | warn m f => simp [applyOp, Warning_infos, infoStrings, List.filterMap_cons]
    | info m f => simp [applyOp, SimpleReport.Info, infoStrings, List.filterMap_cons]

/-- Helper: the `Warnings` list is the guarded-append fold of the
Warning projections. -/
theorem foldl_applyOp_warnings (ops : List ReportOp) :
    ∀ r : SimpleReport,
      (ops.foldl applyOp r).Warnings =
        (warnStrings ops).foldl (fun acc x => if x ∈ acc then acc else acc ++ [x]) r.Warnings := by
  induction ops with
  | nil => intro r; simp [warnStrings]
  | cons op rest ih =>
    intro r
    rw [List.foldl_cons, ih]
    cases op with
    | err m f =>
      have hw : (applyOp r (.err m f)).Warnings = r.Warnings := rfl
      simp [hw, warnStrings, List.filterMap_cons]
    | warn m f =>
      have hw := Warning_warnings r m f
      simp only [applyOp, warnStrings, List.filterMap_cons]
      rw [hw]
      rw [List.foldl_cons]
    | info m f =>
      have hw : (applyOp r (.info m f)).Warnings = r.Warnings := rfl
      simp [hw, warnStrings, List.filterMap_cons]

/-- Helper: the guarded append preserves `Nodup`. -/
theorem dedup_foldl_nodup (xs : List String) :
    ∀ acc : List String, acc.Nodup →
      (xs.foldl (fun acc x => if x ∈ acc then acc else acc ++ [x]) acc).Nodup := by
  induction xs with
  | nil => intro acc h; exact h
  | cons x rest ih =>
    intro acc h
    rw [List.foldl_cons]
    by_cases hx : x ∈ acc
    · rw [if_pos hx]; exact ih acc h
    · rw [if_neg hx]
      refine ih _ ?_
      simp [List.nodup_append, h, hx]

/-- C7: for every sequence of `Error`/`Warning`/`Info` calls starting
from an empty report, `Errors` and `Infos` are exactly the formatted
strings of the respective calls in call order (append-only, duplicates
allowed), while `Warnings` is the first-seen deduplication of the
Warning calls' formatted strings and never contains two equal
entries. -/
theorem c7_report_dedup (ops : List ReportOp) :
    (applyOps ops).Errors = errStrings ops ∧
      (applyOps ops).Infos = infoStrings ops ∧
      (applyOps ops).Warnings = dedupFirstSeen (warnStrings ops) ∧
      (applyOps ops).Warnings.Nodup := by
  refine ⟨?_, ?_, ?_, ?_⟩
  · simpa using foldl_applyOp_errors ops {}
  · simpa using foldl_applyOp_infos ops {}
  · simpa [dedupFirstSeen] using foldl_applyOp_warnings ops {}
  · rw [applyOps, foldl_applyOp_warnings ops {}]
    exact dedup_foldl_nodup _ _ List.nodup_nil

/-- Helper: a guarded monadic fold over `Option` equals the unguarded
fold over the filtered list. -/
theorem foldlM_filter_option {α σ : Type} (P : α → Bool) (g : α → σ → Option σ)
    (l : List α) :
    ∀ r : σ,
      l.foldlM (fun s a => if P a then g a s else some s) r =
        (l.filter P).foldlM (fun s a => g a s) r := by
  induction l with
  | nil => intro r; rfl
  | cons x rest ih =>
    intro r
    rw [List.foldlM_cons]
    by_cases hx : P x = true
    · rw [if_pos hx, List.filter_cons_of_pos hx, List.foldlM_cons]
      cases hgr : g x r <;> simp [ih]
    · rw [if_neg hx, List.filter_cons_of_neg (by simpa using hx)]
      simp [ih]

/-- C9: selector dispatch is match-all, not first-match-wins — for every
record, dispatching equals running, in order, exactly the check
functions of the registered entries whose selector substring occurs in
the record's message; concretely, a message containing two registered
substrings triggers both functions, and the report reflects both (one
Warning from `prLimitReached` and one Error from
`renovateConfigErrors`). -/
theorem c9_dispatch_match_all :
    (∀ (entry : LogEntry) (report : SimpleReport),
      dispatchLine entry report =
        (selectorList.filter fun sel => containsSub entry.Msg sel.1).foldlM
          (fun rep sel => sel.2 entry rep) report) ∧
      dispatchLine
          { Msg := "Reached PR limit - skipping PR creation Found renovate config errors" } {} =
        some { Errors := ["Found renovate config errors | Errors: Unable to parse config errors"],
               Warnings := ["PR limit reached - skipping PR creation"],
               Infos := [] } := by
  constructor
  · intro entry report
    exact foldlM_filter_option _ _ selectorList report
  · rfl

/-- Helper: `strings.Split` never yields the empty list. -/
theorem splitListOn_ne_nil (sep : Char) : ∀ cs : List Char, splitListOn sep cs ≠ [] := by
  intro cs
  cases cs with
  | nil => simp [splitListOn]
  | cons c rest =>
    unfold splitListOn
    by_cases h : c = sep
    · rw [if_pos h]; simp
    · rw [if_neg h]
      cases hs : splitListOn sep rest <;> simp

/-- Helper: on non-empty input, `strings.Split` never yields a single
empty piece. -/
theorem splitListOn_ne_single_nil (sep : Char) :
    ∀ cs : List Char, cs ≠ [] → splitListOn sep cs ≠ [[]] := by
  intro cs hne
  cases cs with
  | nil => exact absurd rfl hne
  | cons c rest =>
    unfold splitListOn
    by_cases h : c = sep
    · rw [if_pos h]
      intro hc
      have h2 : splitListOn sep rest = [] := by injection hc
      exact splitListOn_ne_nil sep rest h2
    · rw [if_neg h]
      cases hs : splitListOn sep rest with
      | nil => simp
      | cons hh tt =>
        intro hc
        injection hc with h1 _
        simp at h1

/-- Helper: `splitLines` never yields the empty list. -/
theorem splitLines_ne_nil (s : String) : splitLines s ≠ [] := by
  unfold splitLines
  intro hc
  exact splitListOn_ne_nil '\n' s.data (by simpa using hc)

/-- Helper: on a non-empty string, `splitLines` never yields `[""]`. -/
theorem splitLines_ne_single_empty (s : String) (h : s ≠ "") : splitLines s ≠ [""] := by
  intro hc
  have hd : s.data ≠ [] := by
    intro hdd
    apply h
    cases s with
    | mk d => cases hdd; rfl
  apply splitListOn_ne_single_nil '\n' s.data hd
  unfold splitLines at hc
  cases hl : splitListOn '\n' s.data with
  | nil => exact absurd hl (splitListOn_ne_nil '\n' s.data)
  | cons x xs =>
    rw [hl] at hc
    simp only [List.map_cons] at hc
    injection hc with h1 h2
    have hx : x = [] := by
      have h1d := congrArg String.data h1
      simpa using h1d
    have hxs : xs = [] := by simpa using h2
    rw [hx, hxs]

/-- Helper: the trailing strip succeeds on non-empty input and agrees
with its total companion. -/
theorem stripTrailing_eq (l1 : List String) (h : l1 ≠ []) :
    stripTrailing l1 = some (claimStripTail l1) := by
  unfold stripTrailing claimStripTail
  cases hL : l1.getLast? with
  | none => exact absurd (List.getLast?_eq_none_iff.mp hL) h
  | some lastLine =>
    show some (if lastLine = "" then l1.dropLast else l1) =
      some (if some lastLine = some "" then l1.dropLast else l1)
    by_cases hlast : lastLine = ""
    · subst hlast
      rw [if_pos rfl, if_pos rfl]
    · rw [if_neg hlast, if_neg (fun hc => hlast (Option.some.inj hc))]

/-- Helper: the leading strip of a non-empty message's lines is
non-empty. -/
theorem leadStrip_ne_nil (msg : String) (hm : msg ≠ "") :
    (if (splitLines msg).head? = some "" then (splitLines msg).tail
      else splitLines msg) ≠ [] := by
  by_cases hh : (splitLines msg).head? = some ""
  · rw [if_pos hh]
    cases hsl : splitLines msg with
    | nil => exact absurd hsl (splitLines_ne_nil msg)
    | cons x xs =>
      rw [hsl] at hh
      simp only [List.head?_cons, Option.some.injEq] at hh
      intro hxs
      simp only [List.tail_cons] at hxs
      exact splitLines_ne_single_empty msg hm (by rw [hsl, hh, hxs])
  · rw [if_neg hh]
    exact splitLines_ne_nil msg

/-- Helper: on a non-empty message the edge strip succeeds and agrees
with the claim's total description. -/
theorem stripEdges_eq_claimStrip (msg : String) (hm : msg ≠ "") :
    stripEdges (splitLines msg) = some (claimStrip msg) := by
  unfold stripEdges claimStrip
  exact stripTrailing_eq _ (leadStrip_ne_nil msg hm)

/-- C8: for every message and every budget `n` such that the message,
after stripping a single leading and a single trailing fully-empty
line, has at most `n` lines, the summarizer returns the
whitespace-trimmed original message unchanged — the fast path of
`extractUsefulError` (checks.go 70–73), with no summarization
artifacts. -/
theorem c8_short_input (msg : String) (n : Int)
    (h : ((claimStrip msg).length : Int) ≤ n) :
    extractUsefulError msg n = some (trimS msg) := by
  by_cases hm : msg = ""
  · subst hm
    rfl
  · unfold extractUsefulError
    rw [if_neg hm, stripEdges_eq_claimStrip msg hm]
    show (if ((claimStrip msg).length : Int) ≤ n then some (trimS msg)
      else processLongMessage (claimStrip msg) n) = some (trimS msg)
    rw [if_pos h]

/-- C8 witness: the theorem applied to the two-line message `"a\nb"`
with budget 5. -/
theorem c8_witness :
    (((claimStrip "a\nb").length : Int) ≤ 5) ∧
      extractUsefulError "a\nb" 5 = some (trimS "a\nb") :=
  ⟨by decide, c8_short_input "a\nb" 5 (by decide)⟩

/-- Helper: loop equation — end of the slice. -/
theorem goPLM_nil (lines : List String) (maxL : Int) (i : Nat) (acc buf : List String)
    (cut : Nat) : goPLM lines maxL i [] acc buf cut = some acc := rfl

/-- Helper: loop equation — skipped (empty or symbol-only) line. -/
theorem goPLM_skip (lines : List String) (maxL : Int) (i : Nat) (line : String)
    (rest acc buf : List String) (cut : Nat) (h : badLine (trimS line) = true) :
    goPLM lines maxL i (line :: rest) acc buf cut =
      goPLM lines maxL (i + 1) rest acc buf cut := by
  simp only [goPLM]
  rw [if_pos h]

/-- Helper: loop equation — the end-of-input branch. -/
theorem goPLM_last (lines : List String) (maxL : Int) (i : Nat) (line : String)
    (rest acc buf : List String) (cut : Nat) (h1 : badLine (trimS line) = false)
    (h2 : (i : Int) = (lines.length : Int) - 1) :
    goPLM lines maxL i (line :: rest) acc buf cut =
      some (flushOmit acc buf cut ++ buf ++ [trimS line]) := by
  simp only [goPLM]
  rw [if_neg (by simp [h1]), if_pos h2]

/-- Helper: loop equation — the length-cutoff branch. -/
theorem goPLM_cutoff (lines : List String) (maxL : Int) (i : Nat) (line : String)
    (rest acc buf : List String) (cut : Nat) (h1 : badLine (trimS line) = false)
    (h2 : ¬((i : Int) = (lines.length : Int) - 1)) (h3 : maxL ≤ (acc.length : Int)) :
    goPLM lines maxL i (line :: rest) acc buf cut = cutoffTail lines i acc cut := by
  simp only [goPLM]
  rw [if_neg (by simp [h1]), if_neg h2, if_pos h3]

/-- Helper: loop equation — a critical line. -/
theorem goPLM_crit (lines : List String) (maxL : Int) (i : Nat) (line : String)
    (rest acc buf : List String) (cut : Nat) (h1 : badLine (trimS line) = false)
    (h2 : ¬((i : Int) = (lines.length : Int) - 1)) (h3 : ¬(maxL ≤ (acc.length : Int)))
    (h4 : isCriticalLine (trimS line) = true) :
    goPLM lines maxL i (line :: rest) acc buf cut =
      goPLM lines maxL (i + 1) rest (flushOmit acc buf cut ++ buf ++ [trimS line]) [] 0 := by
  simp only [goPLM]
  rw [if_neg (by simp [h1]), if_neg h2, if_neg h3, if_pos h4]

/-- Helper: loop equation — a non-critical line. -/
theorem goPLM_noncrit (lines : List String) (maxL : Int) (i : Nat) (line : String)
    (rest acc buf : List String) (cut : Nat) (h1 : badLine (trimS line) = false)
    (h2 : ¬((i : Int) = (lines.length : Int) - 1)) (h3 : ¬(maxL ≤ (acc.length : Int)))
    (h4 : isCriticalLine (trimS line) = false) :
    goPLM lines maxL i (line :: rest) acc buf cut =
      goPLM lines maxL (i + 1) rest acc (pushBuf buf (trimS line)) (cut + 1) := by
  simp only [goPLM]
  rw [if_neg (by simp [h1]), if_neg h2, if_neg h3, if_neg (by simp [h4])]

/-- Helper: appending on the right preserves the head of a non-empty
list. -/
theorem head?_append_right {α : Type} (l l2 : List α) (h : l ≠ []) :
    (l ++ l2).head? = l.head? := by
  cases l with
  | nil => exact absurd rfl h
  | cons a as => rfl

/-- Helper: the guarded tail append succeeds when its guard implies the
index is in range. -/
theorem appendTail_isSome (lines : List String) (k : Int) (grd : Bool) (acc : List String)
    (h : grd = true → 0 ≤ k ∧ k.toNat < lines.length) :
    (appendTail lines k grd acc).isSome := by
  unfold appendTail
  cases grd with
  | false => rfl
  | true =>
    rw [if_pos rfl]
    obtain ⟨hk0, hklt⟩ := h rfl
    unfold getIdx
    rw [if_neg (by omega)]
    cases hg : lines.get? k.toNat with
    | none => exact absurd (List.get?_eq_none.mp hg) (by omega)
    | some l => rfl

/-- Helper: one tail append grows the accumulator by at most one. -/
theorem appendTail_len (lines : List String) (k : Int) (grd : Bool) (acc acc' : List String)
    (h : appendTail lines k grd acc = some acc') : acc'.length ≤ acc.length + 1 := by
  unfold appendTail at h
  cases grd with
  | false =>
    rw [if_neg (by simp)] at h
    rw [← Option.some.inj h]
    omega
  | true =>
    rw [if_pos rfl] at h
    cases hg : getIdx lines k with
    | none => rw [hg] at h; cases h
    | some l =>
      rw [hg] at h
      rw [← Option.some.inj h]
      split
      · simp
      · omega

/-- Helper: one tail append keeps a non-empty accumulator non-empty and
preserves its head. -/
theorem appendTail_head (lines : List String) (k : Int) (grd : Bool) (acc acc' : List String)
    (h : appendTail lines k grd acc = some acc') (hne : acc ≠ []) :
    acc' ≠ [] ∧ acc'.head? = acc.head? := by
  unfold appendTail at h
  cases grd with
  | false =>
    rw [if_neg (by simp)] at h
    rw [← Option.some.inj h]
    exact ⟨hne, rfl⟩
  | true =>
    rw [if_pos rfl] at h
    cases hg : getIdx lines k with
    | none => rw [hg] at h; cases h
    | some l =>
      rw [hg] at h
      rw [← Option.some.inj h]
      split
      · exact ⟨by simp [hne], head?_append_right _ _ hne⟩
      · exact ⟨hne, rfl⟩

/-- Helper: the unguarded final append of a good line appends exactly
its trimmed form. -/
theorem appendTail_good (lines : List String) (k : Int) (acc : List String) (l : String)
    (hg : getIdx lines k = some l) (hb : badLine (trimS l) = false) :
    appendTail lines k true acc = some (acc ++ [trimS l]) := by
  unfold appendTail
  rw [if_pos rfl, hg]
  simp [hb]

/-- Helper: the cutoff epilogue succeeds whenever the walk is past index
one and still inside the slice — exactly the situations the loop reaches
it from. -/
theorem cutoffTail_isSome (lines : List String) (i : Nat) (acc : List String) (cut : Nat)
    (hi : 1 ≤ i) (hlen : i < lines.length) :
    (cutoffTail lines i acc cut).isSome := by
  unfold cutoffTail
  have hg3 : decide ((i : Int) ≤ (lines.length : Int) - 3) = true →
      0 ≤ (lines.length : Int) - 3 ∧ ((lines.length : Int) - 3).toNat < lines.length := by
    intro hd
    have := of_decide_eq_true hd
    omega
  have hg2 : decide ((i : Int) ≤ (lines.length : Int) - 2) = true →
      0 ≤ (lines.length : Int) - 2 ∧ ((lines.length : Int) - 2).toNat < lines.length := by
    intro hd
    have := of_decide_eq_true hd
    omega
  have hg1 : (true : Bool) = true →
      0 ≤ (lines.length : Int) - 1 ∧ ((lines.length : Int) - 1).toNat < lines.length := by
    intro _
    omega
  obtain ⟨acc2, h2⟩ := Option.isSome_iff_exists.mp
    (appendTail_isSome lines ((lines.length : Int) - 3)
      (decide ((i : Int) ≤ (lines.length : Int) - 3))
      (if 0 < (cut : Int) + (lines.length : Int) - (i : Int) - 2 then
        acc ++ [omitStr ((cut : Int) + (lines.length : Int) - (i : Int) - 2)]
      else acc) hg3)
  simp only [h2]
  obtain ⟨acc3, h3⟩ := Option.isSome_iff_exists.mp
    (appendTail_isSome lines ((lines.length : Int) - 2)
      (decide ((i : Int) ≤ (lines.length : Int) - 2)) acc2 hg2)
  simp only [h3]
  exact appendTail_isSome lines ((lines.length : Int) - 1) true acc3 hg1

/-- Helper: the cutoff epilogue emits at most four lines beyond the
accumulator it starts from. -/
theorem cutoffTail_len (lines : List String) (i : Nat) (acc : List String) (cut : Nat)
    (out : List String) (h : cutoffTail lines i acc cut = some out) :
    out.length ≤ acc.length + 4 := by
  unfold cutoffTail at h
  have hflush : (if 0 < (cut : Int) + (lines.length : Int) - (i : Int) - 2 then
      acc ++ [omitStr ((cut : Int) + (lines.length : Int) - (i : Int) - 2)]
    else acc).length ≤ acc.length + 1 := by
    split
    · simp
    · omega
  split at h
  · cases h
  · rename_i acc2 h2
    split at h
    · cases h
    · rename_i acc3 h3
      have l2 := appendTail_len _ _ _ _ _ h2
      have l3 := appendTail_len _ _ _ _ _ h3
      have l4 := appendTail_len _ _ _ _ _ h
      omega

/-- Helper: the cutoff epilogue keeps a non-empty accumulator non-empty
and preserves its head. -/
theorem cutoffTail_head (lines : List String) (i : Nat) (acc : List String) (cut : Nat)
    (out : List String) (h : cutoffTail lines i acc cut = some out) (hne : acc ≠ []) :
    out ≠ [] ∧ out.head? = acc.head? := by
  unfold cutoffTail at h
  have hfne : (if 0 < (cut : Int) + (lines.length : Int) - (i : Int) - 2 then
      acc ++ [omitStr ((cut : Int) + (lines.length : Int) - (i : Int) - 2)]
    else acc) ≠ [] := by
    split
    · simp [hne]
    · exact hne
  have hfhead : (if 0 < (cut : Int) + (lines.length : Int) - (i : Int) - 2 then
      acc ++ [omitStr ((cut : Int) + (lines.length : Int) - (i : Int) - 2)]
    else acc).head? = acc.head? := by
    split
    · exact head?_append_right _ _ hne
    · rfl
  split at h
  · cases h
  · rename_i acc2 h2
    obtain ⟨hne2, hh2⟩ := appendTail_head _ _ _ _ _ h2 hfne
    split at h
    · cases h
    · rename_i acc3 h3
      obtain ⟨hne3, hh3⟩ := appendTail_head _ _ _ _ _ h3 hne2
      obtain ⟨hne4, hh4⟩ := appendTail_head _ _ _ _ _ h hne3
      exact ⟨hne4, by rw [hh4, hh3, hh2, hfhead]⟩

/-- Helper: when the final physical line is good (non-empty, not
symbol-only after trimming), the cutoff epilogue ends with exactly that
trimmed line. -/
theorem cutoffTail_last (lines : List String) (i : Nat) (acc : List String) (cut : Nat)
    (out : List String) (lastLine : String) (h : cutoffTail lines i acc cut = some out)
    (hl : lines.getLast? = some lastLine) (hb : badLine (trimS lastLine) = false) :
    out.getLast? = some (trimS lastLine) := by
  have hlne : lines ≠ [] := by
    intro hc
    rw [hc] at hl
    cases hl
  have hg : getIdx lines ((lines.length : Int) - 1) = some lastLine := by
    unfold getIdx
    have h1 : 0 < lines.length := List.length_pos.mpr hlne
    rw [if_neg (by omega), List.get?_eq_getElem?]
    have ht : ((lines.length : Int) - 1).toNat = lines.length - 1 := by omega
    rw [ht, ← List.getLast?_eq_getElem?]
    exact hl
  unfold cutoffTail at h
  split at h
  · cases h
  · rename_i acc2 h2
    split at h
    · cases h
    · rename_i acc3 h3
      rw [appendTail_good lines _ acc3 lastLine hg hb] at h
      rw [← Option.some.inj h]
      exact List.getLast?_concat acc3

/-- Helper: the walk is total from every reachable state — the guards of
the cutoff epilogue protect every slice access (claim C10's tail-append
observation), and the remaining branches only recurse. -/
theorem goPLM_isSome (lines : List String) (maxL : Int) :
    ∀ (rem : List String) (i : Nat) (acc buf : List String) (cut : Nat),
      rem = lines.drop i → 1 ≤ i →
      (goPLM lines maxL i rem acc buf cut).isSome := by
  intro rem
  induction rem with
  | nil =>
    intro i acc buf cut _ _
    rfl
  | cons line rest ih =>
    intro i acc buf cut hrem hi
    have hlen : i < lines.length := by
      by_contra hle
      push_neg at hle
      rw [List.drop_eq_nil_of_le hle] at hrem
      cases hrem
    have hrest : rest = lines.drop (i + 1) := by
      have ht := congrArg List.tail hrem
      simpa [List.tail_drop] using ht
    cases hb : badLine (trimS line) with
    | true =>
      rw [goPLM_skip _ _ _ _ _ _ _ _ hb]
      exact ih (i + 1) acc buf cut hrest (by omega)
    | false =>
      by_cases hlast : (i : Int) = (lines.length : Int) - 1
      · rw [goPLM_last _ _ _ _ _ _ _ _ hb hlast]
        rfl
      · by_cases hcap : maxL ≤ (acc.length : Int)
        · rw [goPLM_cutoff _ _ _ _ _ _ _ _ hb hlast hcap]
          exact cutoffTail_isSome lines i acc cut hi hlen
        · cases hcrit : isCriticalLine (trimS line) with
          | true =>
            rw [goPLM_crit _ _ _ _ _ _ _ _ hb hlast hcap hcrit]
            exact ih (i + 1) _ [] 0 hrest (by omega)
          | false =>
            rw [goPLM_noncrit _ _ _ _ _ _ _ _ hb hlast hcap hcrit]
            exact ih (i + 1) acc _ (cut + 1) hrest (by omega)

/-- Helper: `getIdx` at index 0 is `head?`. -/
theorem getIdx_zero (xs : List String) : getIdx xs 0 = xs.head? := by
  unfold getIdx
  rw [if_neg (by omega), List.get?_eq_getElem?]
  exact (List.head?_eq_getElem? xs).symm

/-- Helper: the summarizer is total for every non-negative budget. -/
theorem extractUsefulError_isSome (msg : String) (n : Int) (h : 0 ≤ n) :
    (extractUsefulError msg n).isSome := by
  by_cases hm : msg = ""
  · subst hm
    rfl
  · unfold extractUsefulError
    rw [if_neg hm, stripEdges_eq_claimStrip msg hm]
    show (if ((claimStrip msg).length : Int) ≤ n then some (trimS msg)
      else processLongMessage (claimStrip msg) n).isSome
    by_cases hfit : ((claimStrip msg).length : Int) ≤ n
    · rw [if_pos hfit]
      rfl
    · rw [if_neg hfit]
      unfold processLongMessage processLongLines
      have hpos : 0 < (claimStrip msg).length := by omega
      obtain ⟨l0, hl0⟩ : ∃ l0, (claimStrip msg).head? = some l0 := by
        cases hcl : claimStrip msg with
        | nil => rw [hcl] at hpos; cases hpos
        | cons a as => exact ⟨a, rfl⟩
      rw [getIdx_zero]
      simp only [hl0]
      have hgo := goPLM_isSome (claimStrip msg) n ((claimStrip msg).drop 1) 1
        [trimS l0] [] 0 rfl (by omega)
      simpa using hgo

/-- C10 counterexample: the claim quantifies over every line budget, but
the budget is a Go `int`. With budget −1 and the input `"\n"` — whose
edge-stripped line list is empty — the fast path is not taken
(`0 ≤ -1` fails) and `processLongMessage` dereferences `lines[0]` of an
empty slice: an index-out-of-range panic (checks.go line 80). -/
theorem c10_counterexample : extractUsefulError "\n" (-1) = none := by decide

/-- C10 (amended): for every input string (including the empty string,
strings of only newlines, and strings whose stripped form has fewer than
3 lines) and every non-negative line budget, `extractUsefulError`
terminates and returns a string: the tail-append guards of the cutoff
branch protect the last-3 and last-2 accesses, and with a non-negative
budget the empty-stripped-input case always takes the fast path. -/
theorem c10_amended (msg : String) (n : Int) (h : 0 ≤ n) :
    (extractUsefulError msg n).isSome :=
  extractUsefulError_isSome msg n h

/-- C10 witness: the amended theorem at the two-line input and budget 0. -/
theorem c10_witness : (0 : Int) ≤ 0 ∧ (extractUsefulError "a\nb" 0).isSome :=
  ⟨by decide, c10_amended "a\nb" 0 (by decide)⟩

/-- Helper: the placeholder flush adds at most one line. -/
theorem flushOmit_len (acc buf : List String) (cut : Nat) :
    (flushOmit acc buf cut).length ≤ acc.length + 1 := by
  unfold flushOmit
  split
  · simp
  · omega

/-- Helper: the walk's output length, from any state inside the
invariant (accumulator at most `maxL + 3` lines — the critical branch
only fires below `maxL` and adds at most 4 — and a context buffer of at
most 2), never exceeds `maxL + 7`. -/
theorem goPLM_len (lines : List String) (maxL : Int) :
    ∀ (rem : List String) (i : Nat) (acc buf : List String) (cut : Nat)
      (out : List String),
      (acc.length : Int) ≤ maxL + 3 → buf.length ≤ 2 →
      goPLM lines maxL i rem acc buf cut = some out →
      (out.length : Int) ≤ maxL + 7 := by
  intro rem
  induction rem with
  | nil =>
    intro i acc buf cut out hacc hbuf h
    rw [goPLM_nil] at h
    rw [← Option.some.inj h]
    omega
  | cons line rest ih =>
    intro i acc buf cut out hacc hbuf h
    cases hb : badLine (trimS line) with
    | true =>
      rw [goPLM_skip _ _ _ _ _ _ _ _ hb] at h
      exact ih (i + 1) acc buf cut out hacc hbuf h
    | false =>
      by_cases hlast : (i : Int) = (lines.length : Int) - 1
      · rw [goPLM_last _ _ _ _ _ _ _ _ hb hlast] at h
        rw [← Option.some.inj h]
        have hf := flushOmit_len acc buf cut
        have hlen2 : (flushOmit acc buf cut ++ buf ++ [trimS line]).length =
            (flushOmit acc buf cut).length + buf.length + 1 := by
          simp
          omega
        rw [hlen2]
        push_cast
        omega
      · by_cases hcap : maxL ≤ (acc.length : Int)
        · rw [goPLM_cutoff _ _ _ _ _ _ _ _ hb hlast hcap] at h
          have hc := cutoffTail_len lines i acc cut out h
          omega
        · cases hcrit : isCriticalLine (trimS line) with
          | true =>
            rw [goPLM_crit _ _ _ _ _ _ _ _ hb hlast hcap hcrit] at h
            refine ih (i + 1) _ [] 0 out ?_ (by simp) h
            have hf := flushOmit_len acc buf cut
            push_neg at hcap
            have hlen2 : (flushOmit acc buf cut ++ buf ++ [trimS line]).length =
                (flushOmit acc buf cut).length + buf.length + 1 := by
              simp
              omega
            rw [hlen2]
            push_cast
            omega
          | false =>
            rw [goPLM_noncrit _ _ _ _ _ _ _ _ hb hlast hcap hcrit] at h
            refine ih (i + 1) acc _ (cut + 1) out hacc ?_ h
            unfold pushBuf
            split
            · simp only [List.length_append, List.length_drop, List.length_cons,
                List.length_nil]
              omega
            · rename_i hlt
              push_neg at hlt
              simp only [List.length_append, List.length_cons, List.length_nil]
              omega

/-- C4 counterexample: the claim bounds the long-path output by
`maxLines + 2`. With budget 2, the message below drives the walk into
the critical branch while the accumulator holds one line: the flush
appends a placeholder, two context lines and the critical line at once,
producing 5 output lines, which exceeds 2 + 2. -/
theorem c4_counterexample :
    extractUsefulError "first\nn1\nn2\nn3\nn4\nn5\nError: boom\n~~~" 2 =
        some "first\n[... 3 lines omitted ...]\nn4\nn5\nError: boom" ∧
      processLongLines ["first", "n1", "n2", "n3", "n4", "n5", "Error: boom", "~~~"] 2 =
        some ["first", "[... 3 lines omitted ...]", "n4", "n5", "Error: boom"] ∧
      ¬((5 : Int) ≤ 2 + 2) := by
  refine ⟨by decide, by decide, by decide⟩

/-- C4 (amended): for every input and every non-negative budget on which
the long-message path runs, the number of emitted lines exceeds
`maxLines` by at most 7 — the critical branch fires only below the
budget and adds at most 4 lines (placeholder, two context lines, the
critical line), after which either terminal branch adds at most 4
more. -/
theorem c4_amended (lines : List String) (maxL : Int) (out : List String)
    (hm : 0 ≤ maxL) (h : processLongLines lines maxL = some out) :
    (out.length : Int) ≤ maxL + 7 := by
  unfold processLongLines at h
  split at h
  · cases h
  · rename_i l0 hg
    refine goPLM_len lines maxL (lines.drop 1) 1 [trimS l0] [] 0 out ?_ (by simp) h
    simp only [List.length_cons, List.length_nil]
    omega

/-- C4 witness: the amended bound applied to a concrete two-line input
with budget 0. -/
theorem c4_witness :
    (0 : Int) ≤ 0 ∧ processLongLines ["a", "b"] 0 = some ["a", "b"] ∧
      (((["a", "b"] : List String).length : Int) ≤ 0 + 7) :=
  ⟨by decide, by decide, c4_amended ["a", "b"] 0 ["a", "b"] (by decide) (by decide)⟩

/-- Helper: the walk only ever appends to the accumulator, so its output
keeps the head of a non-empty accumulator. -/
theorem goPLM_head (lines : List String) (maxL : Int) :
    ∀ (rem : List String) (i : Nat) (acc buf : List String) (cut : Nat)
      (out : List String),
      acc ≠ [] → goPLM lines maxL i rem acc buf cut = some out →
      out ≠ [] ∧ out.head? = acc.head? := by
  intro rem
  induction rem with
  | nil =>
    intro i acc buf cut out hne h
    rw [goPLM_nil] at h
    rw [← Option.some.inj h]
    exact ⟨hne, rfl⟩
  | cons line rest ih =>
    intro i acc buf cut out hne h
    cases hb : badLine (trimS line) with
    | true =>
      rw [goPLM_skip _ _ _ _ _ _ _ _ hb] at h
      exact ih (i + 1) acc buf cut out hne h
    | false =>
      have hfne : flushOmit acc buf cut ≠ [] := by
        unfold flushOmit
        split
        · simp [hne]
        · exact hne
      have hfh : (flushOmit acc buf cut).head? = acc.head? := by
        unfold flushOmit
        split
        · exact head?_append_right _ _ hne
        · rfl
      by_cases hlast : (i : Int) = (lines.length : Int) - 1
      · rw [goPLM_last _ _ _ _ _ _ _ _ hb hlast] at h
        rw [← Option.some.inj h]
        constructor
        · simp
        · rw [List.append_assoc, head?_append_right _ _ hfne, hfh]
      · by_cases hcap : maxL ≤ (acc.length : Int)
        · rw [goPLM_cutoff _ _ _ _ _ _ _ _ hb hlast hcap] at h
          exact cutoffTail_head lines i acc cut out h hne
        · cases hcrit : isCriticalLine (trimS line) with
          | true =>
            rw [goPLM_crit _ _ _ _ _ _ _ _ hb hlast hcap hcrit] at h
            obtain ⟨o1, o2⟩ := ih (i + 1) _ [] 0 out (by simp) h
            refine ⟨o1, ?_⟩
            rw [o2, List.append_assoc, head?_append_right _ _ hfne, hfh]
          | false =>
            rw [goPLM_noncrit _ _ _ _ _ _ _ _ hb hlast hcap hcrit] at h
            exact ih (i + 1) acc _ (cut + 1) out hne h

/-- Helper: when the remaining slice is the final singleton, the current
line is the final line of `lines`. -/
theorem drop_singleton_last (lines : List String) (i : Nat) (line : String)
    (hrem : [line] = lines.drop i) (hlen : i < lines.length) :
    lines.getLast? = some line ∧ (i : Int) = (lines.length : Int) - 1 := by
  have hlen2 : lines.length ≤ i + 1 := by
    by_contra hgt
    push_neg at hgt
    have hne2 : lines.drop (i + 1) ≠ [] := by
      intro hcc
      have := List.drop_eq_nil_iff.mp hcc
      omega
    have ht := congrArg List.tail hrem
    rw [List.tail_drop] at ht
    exact hne2 ht.symm
  have hline : lines.get? i = some line := by
    have hh : (lines.drop i).head? = some line := by
      rw [← hrem]
      rfl
    rwa [List.head?_drop, ← List.get?_eq_getElem?] at hh
  have hieq : i = lines.length - 1 := by omega
  constructor
  · rw [List.getLast?_eq_getElem?, ← List.get?_eq_getElem?, ← hieq]
    exact hline
  · omega

/-- Helper: when the final physical line of `lines` is good (non-empty
and not symbol-only after trimming), the walk's output from any
reachable state with input remaining ends with exactly that trimmed
line: the end-of-input branch emits it when the walk reaches it, and the
cutoff epilogue appends it unconditionally otherwise. -/
theorem goPLM_lastgood (lines : List String) (maxL : Int) (lastLine : String)
    (hl : lines.getLast? = some lastLine) (hbgood : badLine (trimS lastLine) = false) :
    ∀ (rem : List String) (i : Nat) (acc buf : List String) (cut : Nat)
      (out : List String),
      rem = lines.drop i → 1 ≤ i → rem ≠ [] →
      goPLM lines maxL i rem acc buf cut = some out →
      out.getLast? = some (trimS lastLine) := by
  intro rem
  induction rem with
  | nil =>
    intro i acc buf cut out _ _ hne _
    exact absurd rfl hne
  | cons line rest ih =>
    intro i acc buf cut out hrem hi _ h
    have hlen : i < lines.length := by
      by_contra hle
      push_neg at hle
      rw [List.drop_eq_nil_of_le hle] at hrem
      cases hrem
    have hrest : rest = lines.drop (i + 1) := by
      have ht := congrArg List.tail hrem
      simpa [List.tail_drop] using ht
    have hline : lines.get? i = some line := by
      have hh : (lines.drop i).head? = some line := by
        rw [← hrem]
        rfl
      rwa [List.head?_drop, ← List.get?_eq_getElem?] at hh
    cases hb : badLine (trimS line) with
    | true =>
      rw [goPLM_skip _ _ _ _ _ _ _ _ hb] at h
      by_cases hrnil : rest = []
      · exfalso
        rw [hrnil] at hrem
        obtain ⟨hgl, _⟩ := drop_singleton_last lines i line hrem hlen
        rw [hl] at hgl
        rw [Option.some.inj hgl] at hbgood
        rw [hb] at hbgood
        cases hbgood
      · exact ih (i + 1) acc buf cut out hrest (by omega) hrnil h
    | false =>
      by_cases hlast : (i : Int) = (lines.length : Int) - 1
      · rw [goPLM_last _ _ _ _ _ _ _ _ hb hlast] at h
        have hgl : lines.getLast? = some line := by
          have hieq : i = lines.length - 1 := by omega
          rw [List.getLast?_eq_getElem?, ← List.get?_eq_getElem?, ← hieq]
          exact hline
        rw [hl] at hgl
        have hll : lastLine = line := Option.some.inj hgl
        rw [← Option.some.inj h, ← hll]
        exact List.getLast?_concat _
      · have hrne : rest ≠ [] := by
          rw [hrest]
          intro hc
          have := List.drop_eq_nil_iff.mp hc
          apply hlast
          omega
        by_cases hcap : maxL ≤ (acc.length : Int)
        · rw [goPLM_cutoff _ _ _ _ _ _ _ _ hb hlast hcap] at h
          exact cutoffTail_last lines i acc cut out lastLine h hl hbgood
        · cases hcrit : isCriticalLine (trimS line) with
          | true =>
            rw [goPLM_crit _ _ _ _ _ _ _ _ hb hlast hcap hcrit] at h
            exact ih (i + 1) _ [] 0 out hrest (by omega) hrne h
          | false =>
            rw [goPLM_noncrit _ _ _ _ _ _ _ _ hb hlast hcap hcrit] at h
            exact ih (i + 1) acc _ (cut + 1) out hrest (by omega) hrne h

/-- C3 counterexample: the claim says the output always includes the
final line or explicitly reports it as omitted, and in particular that
the end-of-input branch emits it even if empty or symbol-only. In the
code the empty/symbol skip (checks.go 93–95) runs *before* the final-line
check (line 97), so the symbol-only final line of `"a\nb\nc\n~~~"` with
budget 3 is silently dropped: the output is just `"a"`, containing
neither the final line nor any omission marker. -/
theorem c3_counterexample :
    extractUsefulError "a\nb\nc\n~~~" 3 = some "a" ∧
      containsSub "a" "~~~" = false ∧ containsSub "a" "omitted" = false := by
  refine ⟨by decide, by decide, by decide⟩

/-- C3 (amended): on the long-message path the output always starts with
the trimmed first line; and whenever the final physical line trims to
something non-empty and not symbol-only, it is exactly the last line of
the output — emitted unconditionally by the end-of-input branch when the
forward walk reaches it, or appended by the cutoff epilogue otherwise. A
final line that trims to empty or symbol-only may be silently dropped
with no omission report. -/
theorem c3_amended (lines : List String) (maxL : Int) (out : List String)
    (l0 lastLine : String)
    (h0 : lines.head? = some l0) (hl : lines.getLast? = some lastLine)
    (hrun : processLongLines lines maxL = some out) :
    (out ≠ [] ∧ out.head? = some (trimS l0)) ∧
      (badLine (trimS lastLine) = false → out.getLast? = some (trimS lastLine)) := by
  unfold processLongLines at hrun
  rw [getIdx_zero, h0] at hrun
  simp only [] at hrun
  constructor
  · obtain ⟨o1, o2⟩ := goPLM_head lines maxL (lines.drop 1) 1 [trimS l0] [] 0 out
      (by simp) hrun
    exact ⟨o1, by rw [o2]; rfl⟩
  · intro hbgood
    by_cases hd1 : lines.drop 1 = []
    · rw [hd1, goPLM_nil] at hrun
      rw [← Option.some.inj hrun]
      have hlen1 : lines.length ≤ 1 := by
        have := List.drop_eq_nil_iff.mp hd1
        omega
      have hlines : lines = [l0] := by
        cases lines with
        | nil => cases h0
        | cons a as =>
          cases as with
          | nil =>
            rw [Option.some.inj h0]
          | cons b bs => simp at hlen1
      rw [hlines] at hl
      have hll : lastLine = l0 := (Option.some.inj hl).symm
      rw [hll]
      rfl
    · exact goPLM_lastgood lines maxL lastLine hl hbgood (lines.drop 1) 1
        [trimS l0] [] 0 out rfl (by omega) hd1 hrun

/-- C3 witness: the amended theorem at a four-line input with budget 2,
where the walk reaches the final line before the cutoff. -/
theorem c3_witness :
    ((["a", "b", "c", "d"] : List String) ≠ [] ∧
        (["a", "b", "c", "d"] : List String).head? = some (trimS "a")) ∧
      (badLine (trimS "d") = false →
        (["a", "b", "c", "d"] : List String).getLast? = some (trimS "d")) :=
  c3_amended ["a", "b", "c", "d"] 2 ["a", "b", "c", "d"] "a" "d"
    (by decide) (by decide) (by decide)

/-- Helper: loop equation — the cancellation check fires. -/
theorem plfGo_check (c : Option Nat) (readErr : Bool) (n : Nat) (raw : RawLine)
    (rest : List RawLine) (st : ScanState) (hc : cancelCheck c n = true) :
    plfGo c readErr n (raw :: rest) st =
      some (if stateEmpty st then PLFResult.fail "log processing cancelled" st.report
        else PLFResult.ok (buildErrorMessageFromLogs st.errorsMap st.fatalMap) st.report) := by
  simp only [plfGo]
  rw [if_pos hc]
  split <;> rfl

/-- Helper: loop equation — no cancellation, one line stepped. -/
theorem plfGo_step (c : Option Nat) (readErr : Bool) (n : Nat) (raw : RawLine)
    (rest : List RawLine) (st st1 : ScanState) (hc : cancelCheck c n = false)
    (hs : stepLine st raw = some st1) :
    plfGo c readErr n (raw :: rest) st = plfGo c readErr (n + 1) rest st1 := by
  simp only [plfGo]
  rw [if_neg (by simp [hc])]
  simp only [hs]

/-- Helper: with no cancellation and a read error after the final line,
the loop's result is decided by the accumulated state: a hard failure
when empty, the partial digest and report otherwise (checks.go
346–351). -/
theorem plfGo_readErr :
    ∀ (rem : List RawLine) (n : Nat) (st st' : ScanState),
      rem.foldlM stepLine st = some st' →
      plfGo none true n rem st =
        some (if stateEmpty st' then PLFResult.fail "error reading log file" st'.report
          else PLFResult.ok (buildErrorMessageFromLogs st'.errorsMap st'.fatalMap)
            st'.report) := by
  intro rem
  induction rem with
  | nil =>
    intro n st st' hf
    have hst : st = st' := by simpa using hf
    subst hst
    show (if stateEmpty st then some (PLFResult.fail "error reading log file" st.report)
      else some (PLFResult.ok (buildErrorMessageFromLogs st.errorsMap st.fatalMap)
        st.report)) = _
    split <;> rfl
  | cons raw rest ih =>
    intro n st st' hf
    rw [List.foldlM_cons] at hf
    cases hs : stepLine st raw with
    | none =>
      rw [hs] at hf
      simp at hf
    | some st1 =>
      rw [hs] at hf
      rw [plfGo_step none true n raw rest st st1 (by simp [cancelCheck, ctxDone]) hs]
      exact ih (n + 1) st1 st' hf

/-- Helper: when the context is cancelled from line `k` on and `m` is
the first check point at or after `k` that the scan reaches before the
stream ends, the loop stops at `m` and its result is decided by the
state accumulated over the first `m` lines: a hard failure when empty,
the partial digest and report otherwise (checks.go 310–318). -/
theorem plfGo_cancel_reach (k m : Nat) (hm : m % 100 = 0) (hk : k ≤ m) :
    ∀ (rem : List RawLine) (n : Nat) (st st' : ScanState),
      n ≤ m →
      (∀ j, n ≤ j → j < m → j % 100 = 0 → j < k) →
      m - n < rem.length →
      (rem.take (m - n)).foldlM stepLine st = some st' →
      plfGo (some k) false n rem st =
        some (if stateEmpty st' then PLFResult.fail "log processing cancelled" st'.report
          else PLFResult.ok (buildErrorMessageFromLogs st'.errorsMap st'.fatalMap)
            st'.report) := by
  intro rem
  induction rem with
  | nil =>
    intro n st st' _ _ hlen _
    simp at hlen
  | cons raw rest ih =>
    intro n st st' hnm hleast hlen hf
    by_cases hn : n = m
    · subst hn
      have hc : cancelCheck (some k) n = true := by
        unfold cancelCheck ctxDone
        simp [hm, hk]
      rw [plfGo_check (some k) false n raw rest st hc]
      have hst : st = st' := by
        have h0 : n - n = 0 := by omega
        rw [h0] at hf
        simpa using hf
      subst hst
      rfl
    · have hnm' : n < m := by omega
      have hc : cancelCheck (some k) n = false := by
        unfold cancelCheck ctxDone
        by_cases h100 : n % 100 = 0
        · have hjk := hleast n (le_refl n) hnm' h100
          simp [h100]
          omega
        · simp [h100]
      have htake : (raw :: rest).take (m - n) = raw :: rest.take (m - n - 1) := by
        have heq : m - n = (m - n - 1) + 1 := by omega
        rw [heq]
        rfl
      rw [htake, List.foldlM_cons] at hf
      cases hs : stepLine st raw with
      | none =>
        rw [hs] at hf
        simp at hf
      | some st1 =>
        rw [hs] at hf
        rw [plfGo_step (some k) false n raw rest st st1 hc hs]
        refine ih (n + 1) st1 st' (by omega) ?_ ?_ ?_
        · intro j hj1 hj2 hj3
          exact hleast j (by omega) hj2 hj3
        · simp only [List.length_cons] at hlen
          omega
        · have heq : m - n - 1 = m - (n + 1) := by omega
          rw [← heq]
          exact hf

/-- C6: when a read error or a cancellation interrupts the scan, the
result is decided by what has accumulated: with findings (non-empty
tallies or report lists) the partial digest and report are returned with
no error; with nothing accumulated, a hard failure is returned. Part
one: a read error after the stream's lines were consumed. Part two: a
cancellation that the loop first observes at check point `m` (the first
multiple of 100 at or past the cancellation line `k`) before the stream
ends, with the state accumulated over the first `m` lines. -/
theorem c6_interrupt_result (stream : List RawLine) :
    (∀ st' : ScanState, stream.foldlM stepLine {} = some st' →
      processLogFile none stream true =
        some (if stateEmpty st' then PLFResult.fail "error reading log file" st'.report
          else PLFResult.ok (buildErrorMessageFromLogs st'.errorsMap st'.fatalMap)
            st'.report)) ∧
    (∀ (k m : Nat) (st' : ScanState),
      m % 100 = 0 → k ≤ m → (∀ j, j < m → j % 100 = 0 → j < k) → m < stream.length →
      (stream.take m).foldlM stepLine {} = some st' →
      processLogFile (some k) stream false =
        some (if stateEmpty st' then PLFResult.fail "log processing cancelled" st'.report
          else PLFResult.ok (buildErrorMessageFromLogs st'.errorsMap st'.fatalMap)
            st'.report)) := by
  constructor
  · intro st' hf
    exact plfGo_readErr stream 0 {} st' hf
  · intro k m st' hm hk hleast hlen hf
    exact plfGo_cancel_reach k m hm hk stream 0 {} st' (by omega)
      (fun j _ hj2 hj3 => hleast j hj2 hj3) (by simpa using hlen) (by simpa using hf)

/-- C6 witness: part one at a one-line stream holding an ERROR record
(findings exist, so the partial digest is returned with no error), and
part two at an immediate cancellation over an empty state (a hard
failure). -/
theorem c6_witness :
    (processLogFile none [some [("level", JValue.num 50), ("msg", JValue.str "boom")]] true =
      some (PLFResult.ok "Mintmaker finished with 1 ERROR: boom\n" {})) ∧
    (processLogFile (some 0) [some [("msg", JValue.str "x")]] false =
      some (PLFResult.fail "log processing cancelled" {})) := by
  constructor
  · have h := (c6_interrupt_result
      [some [("level", JValue.num 50), ("msg", JValue.str "boom")]]).1
      { errorsMap := [("boom\n", 1)] } (by decide)
    exact h.trans (by decide)
  · have h := (c6_interrupt_result [some [("msg", JValue.str "x")]]).2 0 0 {}
      (by decide) (by decide) (fun j hj _ => absurd hj (by omega)) (by decide) (by decide)
    exact h.trans (by decide)
